import Mathlib

/-!
Verification of the `outpack_server` repository engine against its
natural-language specification.

The Rust sources are shallowly embedded: pure functions become Lean
functions, filesystem state becomes explicit record-passing, `io::Result`
becomes `Except IoError` (with a distinguished `panic` outcome where the
Rust can panic), and `f64` timestamps become `Rat`.

Two pieces of the crate are referenced by the sources under study but are
absent from the source tree (`crate::hash` and `location::mark_packet_known`);
their definitions below are modelled from the specification, adjusted only
where the repository's own tests pin a different behaviour.  Each such
definition says so in its doc comment.
-/

namespace Outpack

/-! ## Hash (modelled: `src/hash.rs` is absent from the sources)

The hash module is referenced everywhere (`crate::hash`) but its file is not
in the source tree.  The model below follows the spec's description of
`<algo>:<hex>` parsing, with one forced correction: the spec demands the hex
part to have the exact digest length of the named algorithm (sha1=40,
sha256=64, md5=32), but the repository's own tests accept shorter values
(`store.rs::tests::can_get_path` parses `sha256:e9aa9f2212ab`, 12 hex
digits, and `put_file_validates_hash_match` parses `md5:abcde`), so the
model performs no length validation.
-/

/-- The three digest algorithms the hash module recognises. -/
inductive HashAlgorithm where
  | sha1
  | sha256
  | md5
deriving DecidableEq

/-- `Display` for `HashAlgorithm` (the serialised lowercase name). -/
def HashAlgorithm.name : HashAlgorithm → String
  | .sha1 => "sha1"
  | .sha256 => "sha256"
  | .md5 => "md5"

/-- `HashAlgorithm::from_str`. -/
def HashAlgorithm.fromString (s : String) : Option HashAlgorithm :=
  if s = "sha1" then some .sha1
  else if s = "sha256" then some .sha256
  else if s = "md5" then some .md5
  else none

/-- A parsed hash: algorithm plus hexadecimal digest string. -/
structure Hash where
  algorithm : HashAlgorithm
  value : String
deriving DecidableEq

/-- `Display` for `Hash`: `<algo>:<hex>`. -/
def Hash.render (h : Hash) : String :=
  h.algorithm.name ++ ":" ++ h.value

/-- Errors produced by the hash module. -/
inductive HashError where
  | invalidFormat (s : String)
  | invalidAlgorithm (s : String)
  | mismatch (expected found : String)
deriving DecidableEq

/-- A hexadecimal digit (the POSIX `[[:xdigit:]]` class). -/
def isXdigit (c : Char) : Bool :=
  c.isDigit || ('a' ≤ c && c ≤ 'f') || ('A' ≤ c && c ≤ 'F')

/-- An alphanumeric character (the POSIX `[[:alnum:]]` class). -/
def isAlnumChar (c : Char) : Bool :=
  c.isAlpha || c.isDigit

/-- Modelled from the spec: parsing `<algo>:<hex>` (`impl FromStr for Hash`
in the absent `src/hash.rs`).  The string must match
`^[[:alnum:]]+:[[:xdigit:]]+$` and the algorithm name must be recognised;
there is no length check on the hex part (see the module comment). -/
def parseHash (s : String) : Except HashError Hash :=
  let cs := s.toList
  let a := cs.takeWhile (· ≠ ':')
  match cs.dropWhile (· ≠ ':') with
  | ':' :: v =>
    if a ≠ [] ∧ a.all isAlnumChar ∧ v ≠ [] ∧ v.all isXdigit then
      match HashAlgorithm.fromString (String.mk a) with
      | some alg => .ok ⟨alg, String.mk v⟩
      | none => .error (.invalidAlgorithm s)
    else .error (.invalidFormat s)
  | _ => .error (.invalidFormat s)

/-- An implementation of the digest primitives.  The actual digests are
computed by external crates (`sha2`, `sha1`, `md-5`), which are outside the
repository; the engine only ever treats the hex digest as an opaque string,
so the digest function is threaded through as an explicit collaborator. -/
structure HashImpl where
  digestHex : HashAlgorithm → String → String

/-- Modelled from the spec: `hash::hash_data(data, algo) -> Hash` in the
absent `src/hash.rs`. -/
def hashData (H : HashImpl) (data : String) (alg : HashAlgorithm) : Hash :=
  ⟨alg, H.digestHex alg data⟩

/-- Modelled from the spec: `hash::validate_hash_data(data, expected)` in
the absent `src/hash.rs`: parse the expected hash, hash the data with the
same algorithm, and fail with the `Expected hash ... but found ...`
mismatch error when they differ (the message is pinned by
`store.rs::tests::put_file_validates_hash_match` and the spec's §8). -/
def validateHashData (H : HashImpl) (data : String) (expected : String) :
    Except HashError Unit :=
  match parseHash expected with
  | .error e => .error e
  | .ok h =>
    let found := hashData H data h.algorithm
    if found = h then .ok ()
    else .error (.mismatch expected found.render)

/-! ## Error kinds (`std::io::ErrorKind` as used by the engine) -/

/-- The `io::ErrorKind` values the engine distinguishes, plus a sample of
the kinds it does not (everything else is mapped uniformly, so a few
representatives suffice to make the catch-all arm meaningful). -/
inductive ErrorKind where
  | notFound
  | invalidInput
  | unexpectedEof
  | alreadyExists
  | invalidData
  | permissionDenied
  | other
deriving DecidableEq

/-- An `io::Error`: a kind together with its message. -/
structure IoError where
  kind : ErrorKind
  msg : String
deriving DecidableEq

/-- Modelled from the spec: `hash::hash_error_to_io_error` in the absent
`src/hash.rs`.  The spec (§4.1) says all hash errors map to the engine's
input-validation error kind, and `store.rs::tests` pin the messages
`Invalid hash format '<s>'` and `Expected hash '<e>' but found '<f>'`. -/
def hashErrorToIoError : HashError → IoError
  | .invalidFormat s => ⟨.invalidInput, "Invalid hash format '" ++ s ++ "'"⟩
  | .invalidAlgorithm s => ⟨.invalidInput, "Invalid hash algorithm '" ++ s ++ "'"⟩
  | .mismatch e f =>
    ⟨.invalidInput, "Expected hash '" ++ e ++ "' but found '" ++ f ++ "'"⟩

/-! ## Store (`src/store.rs`)

Paths are modelled as lists of components; the blob store is an association
list from paths to file contents.  `file_path` slices the hex value at byte
index 2 (`&parsed.value[..2]`), which panics when the value is shorter than
two bytes, so results carry an explicit `panic` case.
-/

/-- Result of a fallible computation that can also panic (Rust slice
out-of-bounds). -/
inductive PanicOr (α : Type) where
  | ok (a : α)
  | err (e : IoError)
  | panic
deriving DecidableEq

/-- `store::file_path(root, hash)`: parse the hash, then
`root/.outpack/files/<algo>/<hex[0:2]>/<hex[2:]>`.  The slice `value[..2]`
is modelled by the explicit `panic` case when the parsed hex value has
fewer than two characters (all accepted hex characters are one byte, so
byte and character indices agree). -/
def file_path (root : List String) (hash : String) : PanicOr (List String) :=
  match parseHash hash with
  | .error e => .err (hashErrorToIoError e)
  | .ok parsed =>
    if 2 ≤ parsed.value.length then
      .ok (root ++ [".outpack", "files", parsed.algorithm.name,
        (parsed.value.toList.take 2).asString, (parsed.value.toList.drop 2).asString])
    else .panic

/-- The path components `file_path` produces for a parsed hash (the
ok-case of `file_path`, named for use in statements). -/
def storePath (root : List String) (h : Hash) : List String :=
  root ++ [".outpack", "files", h.algorithm.name,
    (h.value.toList.take 2).asString, (h.value.toList.drop 2).asString]

/-- The content-addressed blob store: existing paths and their contents. -/
abbrev Store := List (List String × String)

/-- `store::file_exists(root, hash)`: parse the hash, stat the path. -/
def file_exists (root : List String) (st : Store) (hash : String) :
    PanicOr Bool :=
  match file_path root hash with
  | .err e => .err e
  | .panic => .panic
  | .ok path => .ok (st.lookup path).isSome

/-- `store::get_missing_files(root, wanted)`: the subset of `wanted` that is
absent from the store; the first error propagates. -/
def get_missing_files (root : List String) (st : Store) (wanted : List String) :
    PanicOr (List String) :=
  match wanted with
  | [] => .ok []
  | h :: rest =>
    match file_exists root st h with
    | .err e => .err e
    | .panic => .panic
    | .ok true => get_missing_files root st rest
    | .ok false =>
      match get_missing_files root st rest with
      | .err e => .err e
      | .panic => .panic
      | .ok missing => .ok (h :: missing)

/-- `store::put_file(root, file, hash)`: materialise the upload (modelled as
the byte string `data`), validate its hash against `hash`, then—unless the
blob already exists—create the parent directory and rename the temp file to
`file_path(root, hash)`.  On error the temp file is discarded and the store
is unchanged. -/
def put_file (H : HashImpl) (root : List String) (st : Store)
    (data : String) (hash : String) : PanicOr Unit × Store :=
  match validateHashData H data hash with
  | .error e => (.err (hashErrorToIoError e), st)
  | .ok () =>
    match file_path root hash with
    | .err e => (.err e, st)
    | .panic => (.panic, st)
    | .ok path =>
      match file_exists root st hash with
      | .err e => (.err e, st)
      | .panic => (.panic, st)
      | .ok true => (.ok (), st)
      | .ok false => (.ok (), (path, data) :: st)

/-! ## Utilities (`src/utils.rs`) -/

/-- `utils::is_packet_str`: the packet-id regex
`^([0-9]{8}-[0-9]{6}-[[:xdigit:]]{8})$`. -/
def is_packet_str (s : String) : Bool :=
  let cs := s.toList
  cs.length == 24 &&
  (cs.take 8).all Char.isDigit &&
  cs.get? 8 == some '-' &&
  ((cs.drop 9).take 6).all Char.isDigit &&
  cs.get? 15 == some '-' &&
  ((cs.drop 16).take 8).all isXdigit

/-- Lexicographic "less than" on code-point lists.  Rust compares `String`s
byte-wise over their UTF-8 encoding, which orders exactly like code points,
so this is the order `Vec::<String>::sort` and `str::cmp` use. -/
def listLtb : List Char → List Char → Bool
  | [], [] => false
  | [], _ :: _ => true
  | _ :: _, [] => false
  | a :: as, b :: bs =>
    if a.toNat < b.toNat then true
    else if b.toNat < a.toNat then false
    else listLtb as bs

/-- `a <= b` in Rust's `String` ordering. -/
def strLe (a b : String) : Prop := listLtb b.data a.data = false

instance : DecidableRel strLe := fun a b =>
  inferInstanceAs (Decidable (listLtb b.data a.data = false))

/-- `utils::write_file_idempotent(path, contents)`, modelled over the file
slot at `path` (`none` = absent).  Creating exclusively succeeds when the
file is absent; when it exists, identical contents are a no-op and different
contents return the `AlreadyExists` error.  Returns the resulting slot. -/
def write_file_idempotent (existing : Option String) (contents : String) :
    Except IoError (Option String) :=
  match existing with
  | none => .ok (some contents)
  | some old =>
    if old = contents then .ok (some old)
    else .error ⟨.alreadyExists, "entity already exists"⟩

/-! ## Data model (`src/metadata.rs`, `src/location.rs`, `src/config.rs`) -/

/-- An opaque JSON value (`serde_json::Value`). -/
inductive JsonValue where
  | null
  | bool (b : Bool)
  | str (s : String)
  | num (q : Rat)
  | arr (elems : List JsonValue)
  | obj (fields : List (String × JsonValue))

/-- `metadata::PacketTime`.  The source fields are `start` and `end`; `end`
is a Lean keyword, so the second field is named `stop` here. -/
structure PacketTime where
  start : Rat
  stop : Rat

/-- `metadata::PacketFile`. -/
structure PacketFile where
  path : String
  hash : String
  size : Nat

/-- `metadata::DependencyFile`. -/
structure DependencyFile where
  here : String
  there : String

/-- `metadata::PacketDependency`. -/
structure PacketDependency where
  packet : String
  files : List DependencyFile

/-- `metadata::Packet`: the structural fields the engine parses out of a
metadata document. -/
structure Packet where
  id : String
  name : String
  custom : Option JsonValue
  parameters : Option (List (String × JsonValue))
  files : List PacketFile
  depends : List PacketDependency
  time : PacketTime

/-- `location::LocationEntry`. -/
structure LocationEntry where
  packet : String
  time : Rat
  hash : String
deriving DecidableEq

/-- `config::Location`. -/
structure Location where
  name : String
  loc_type : String
  args : List (String × JsonValue)

/-- `config::Core`. -/
structure Core where
  hash_algorithm : HashAlgorithm
  path_archive : Option String
  use_file_store : Bool
  require_complete_tree : Bool

/-- `config::Config`. -/
structure Config where
  core : Core
  location : List Location

/-- The mutable on-disk state of one repository root.

* `config` — the parsed contents of `.outpack/config.json` (`none` when the
  file is absent); the JSON codec itself is modelled in the config section.
* `metadata` — the files of `.outpack/metadata/`, in directory enumeration
  order: file name paired with the raw document bytes.
* `locations` — the directories of `.outpack/location/`, each with its
  files: file name paired with the parsed `LocationEntry` (the entry JSON
  codec is treated as transparent).  A directory exists iff its key is
  present.
* `files` — the blob store, keyed by full path.

`.outpack/metadata` itself always exists in an initialised root (`init`
creates it), so its enumeration cannot fail. -/
structure Repo where
  config : Option Config
  metadata : List (String × String)
  locations : List (String × List (String × LocationEntry))
  files : Store

/-- Collect an `Except`-valued map over a list, propagating the first
error (the behaviour of `collect::<io::Result<Vec<_>>>()`). -/
def collectE {α β : Type} (f : α → Except IoError β) : List α → Except IoError (List β)
  | [] => .ok []
  | x :: xs =>
    match f x with
    | .error e => .error e
    | .ok y =>
      match collectE f xs with
      | .error e => .error e
      | .ok ys => .ok (y :: ys)

/-! ## Location index (`src/location.rs`) -/

/-- `location::read_location(dir)`: the entries of one location directory
whose file names match the packet-id regex. -/
def read_location (files : List (String × LocationEntry)) : List LocationEntry :=
  (files.filter (fun f => is_packet_str f.1)).map (·.2)

/-- `location::read_locations(root)`: walk every directory under
`.outpack/location` and read each location's entries (all locations, not
just `local`). -/
def read_locations (st : Repo) : List LocationEntry :=
  (st.locations.map (fun l => read_location l.2)).foldr (· ++ ·) []

/-- Replace the file list of location `loc` (first occurrence). -/
def updateLocation (loc : String) (files : List (String × LocationEntry)) :
    List (String × List (String × LocationEntry)) →
    List (String × List (String × LocationEntry))
  | [] => []
  | (l, fs) :: rest =>
    if l = loc then (l, files) :: rest else (l, fs) :: updateLocation loc files rest

/-- Modelled from the spec: `location::mark_packet_known(id, location, hash,
time, root)` is absent from the sources (only its caller in `metadata.rs`
remains).  The spec (§4.6) says the entry `{packet, time, hash}` is written
to `location/<location>/<id>`, creating the location directory as needed.
The spec further claims an idempotent write that fails with `AlreadyExists`
on differing bytes, but the repository's test `add_packet_is_idempotent`
requires a second identical `add_packet` — whose entry bytes differ in the
`time` field — to succeed, so the write must skip silently whenever the
entry file already exists; that is what is modelled. -/
def mark_packet_known (id loc hashStr : String) (time : Rat) (st : Repo) : Repo :=
  match st.locations.lookup loc with
  | none =>
    { st with locations := st.locations ++ [(loc, [(id, ⟨id, time, hashStr⟩)])] }
  | some files =>
    if (files.lookup id).isSome then st
    else
      { st with
        locations := updateLocation loc (files ++ [(id, ⟨id, time, hashStr⟩)]) st.locations }

/-! ## Metadata index (`src/metadata.rs`) -/

/-- `metadata::read_metadata(path)`: parse a raw document as a `Packet`.
The serde parser is external machinery; it is threaded through as the
function `P`.  A parse failure surfaces as the `InvalidData` I/O error that
`serde_json::Error` converts to. -/
def read_metadata (P : String → Option Packet) (raw : String) :
    Except IoError Packet :=
  match P raw with
  | some p => .ok p
  | none => .error ⟨.invalidData, "failed to parse metadata document"⟩

/-- The comparison `a.id.cmp(&b.id)` used by `sort_by`. -/
def packetIdLe (a b : Packet) : Prop := strLe a.id b.id

instance : DecidableRel packetIdLe := fun a b =>
  inferInstanceAs (Decidable (strLe a.id b.id))

/-- `metadata::get_metadata_from_date(root, from)`: enumerate
`.outpack/metadata`, keep entries whose names match the packet-id regex,
optionally keep only those whose first matching entry across all location
ledgers has `time > from`, parse each document, and sort ascending by id. -/
def get_metadata_from_date (P : String → Option Packet) (st : Repo)
    (from? : Option Rat) : Except IoError (List Packet) :=
  let entries := st.metadata.filter (fun e => is_packet_str e.1)
  let selected :=
    match from? with
    | none => entries
    | some time =>
      let location_meta := read_locations st
      entries.filter (fun e =>
        match location_meta.find? (fun le => le.packet == e.1) with
        | some le => time < le.time
        | none => false)
  match collectE (fun e => read_metadata P e.2) selected with
  | .error e => .error e
  | .ok packets => .ok (packets.insertionSort packetIdLe)

/-- The metadata list operation as the words of the spec (§4.5) and of
claim C2 describe it: packets are kept when they have a LOCAL-location
ledger entry with time strictly greater than `since`.  Written only to be
compared with `get_metadata_from_date` above. -/
def get_metadata_from_date_speced (P : String → Option Packet) (st : Repo)
    (from? : Option Rat) : Except IoError (List Packet) :=
  let entries := st.metadata.filter (fun e => is_packet_str e.1)
  let localEntries :=
    match st.locations.lookup "local" with
    | some fs => read_location fs
    | none => []
  let selected :=
    match from? with
    | none => entries
    | some time =>
      entries.filter (fun e =>
        localEntries.any (fun le => le.packet == e.1 && time < le.time))
  match collectE (fun e => read_metadata P e.2) selected with
  | .error e => .error e
  | .ok packets => .ok (packets.insertionSort packetIdLe)

/-- `metadata::get_sorted_id_string(ids)`: sort, then join with no
separator. -/
def get_sorted_id_string (ids : List String) : String :=
  String.join (ids.insertionSort strLe)

/-- `metadata::get_ids(root, unpacked)`: file names of either
`.outpack/location/local` or `.outpack/metadata`.  Reading
`location/local` fails with `NotFound` when that directory does not
exist. -/
def get_ids (st : Repo) (unpacked : Bool) : Except IoError (List String) :=
  if unpacked then
    match st.locations.lookup "local" with
    | none => .error ⟨.notFound, "no such directory: .outpack/location/local"⟩
    | some files => .ok (files.map (·.1))
  else .ok (st.metadata.map (·.1))

/-- `metadata::get_ids_digest(root, alg_name)`: pick the algorithm (the
configured one when absent), then hash the sorted concatenated id list and
render the result. -/
def get_ids_digest (H : HashImpl) (st : Repo) (alg_name : Option String) :
    Except IoError String :=
  let algorithm : Except IoError HashAlgorithm :=
    match alg_name with
    | none =>
      match st.config with
      | some cfg => .ok cfg.core.hash_algorithm
      | none => .error ⟨.notFound, "config.json not found"⟩
    | some nm =>
      match HashAlgorithm.fromString nm with
      | some a => .ok a
      | none => .error (hashErrorToIoError (.invalidAlgorithm nm))
  match algorithm with
  | .error e => .error e
  | .ok alg =>
    match get_ids st false with
    | .error e => .error e
    | .ok ids => .ok (hashData H (get_sorted_id_string ids) alg).render

/-- `metadata::get_valid_id(id)`: trim, then match against the packet-id
regex; invalid ids fail with `InvalidInput`. -/
def get_valid_id (id : String) : Except IoError String :=
  let s := id.trim
  if is_packet_str s then .ok s
  else .error ⟨.invalidInput, "Invalid packet id '" ++ id ++ "'"⟩

/-- `metadata::get_missing_ids(root, wanted, unpacked)`: validate each
wanted id, subtract the known ones, de-duplicate.  (The Rust returns the
difference of two `HashSet`s, whose order is arbitrary; the model keeps the
validated order, which no caller relies on.) -/
def get_missing_ids (st : Repo) (wanted : List String) (unpacked : Bool) :
    Except IoError (List String) :=
  match get_ids st unpacked with
  | .error e => .error e
  | .ok known =>
    match collectE get_valid_id wanted with
    | .error e => .error e
    | .ok validated =>
      .ok ((validated.filter (fun w => ¬ known.contains w)).dedup)

/-- `metadata::check_missing_files(root, packet)`. -/
def check_missing_files (root : List String) (st : Repo) (packet : Packet) :
    PanicOr Unit :=
  match get_missing_files root st.files (packet.files.map (·.hash)) with
  | .err e => .err e
  | .panic => .panic
  | .ok [] => .ok ()
  | .ok missing =>
    .err ⟨.invalidInput,
      "Can't import metadata for " ++ packet.id ++ ", as files missing: \n "
        ++ String.intercalate "," missing⟩

/-- `metadata::check_missing_dependencies(root, packet)`. -/
def check_missing_dependencies (st : Repo) (packet : Packet) :
    Except IoError Unit :=
  match get_missing_ids st (packet.depends.map (·.packet)) true with
  | .error e => .error e
  | .ok [] => .ok ()
  | .ok missing =>
    .error ⟨.invalidInput,
      "Can't import metadata for " ++ packet.id ++ ", as dependencies missing: \n "
        ++ String.intercalate "," missing⟩

/-- `metadata::add_parsed_metadata(root, data, packet, hash)`: validate the
document bytes against the claimed hash, then write `metadata/<id>` only
when that file does not already exist.  (Note: the source tests existence
with `path.exists()` and otherwise does nothing — it does **not** call
`utils::write_file_idempotent`, so an existing file with different contents
is skipped silently.) -/
def add_parsed_metadata (H : HashImpl) (data : String) (packet : Packet)
    (hash : String) (st : Repo) : Except IoError Repo :=
  match validateHashData H data hash with
  | .error e => .error (hashErrorToIoError e)
  | .ok () =>
    if (st.metadata.lookup packet.id).isSome then .ok st
    else .ok { st with metadata := st.metadata ++ [(packet.id, data)] }

/-- `metadata::add_packet(root, data, hash)`: parse the document, check the
referenced files are in the store and the dependencies are unpacked
locally, persist the metadata, then mark the packet known in the `local`
location at the current time (`now`).  The result pairs the outcome with
the resulting repository state. -/
def add_packet (P : String → Option Packet) (H : HashImpl)
    (root : List String) (now : Rat) (data : String) (h : Hash) (st : Repo) :
    PanicOr Unit × Repo :=
  match P data with
  | none => (.err ⟨.invalidData, "failed to parse metadata document"⟩, st)
  | some packet =>
    match check_missing_files root st packet with
    | .err e => (.err e, st)
    | .panic => (.panic, st)
    | .ok () =>
      match check_missing_dependencies st packet with
      | .error e => (.err e, st)
      | .ok () =>
        match add_parsed_metadata H data packet h.render st with
        | .error e => (.err e, st)
        | .ok st' =>
          (.ok (), mark_packet_known packet.id "local" h.render now st')

/-! ## Config file I/O (`src/config.rs`)

`read_config`/`write_config` move the configuration through
`serde_json`; the serde codec is external derive machinery, so it is
threaded through as an explicit serialise/deserialise pair over an
arbitrary on-disk representation `β`. -/

/-- The slice of disk state `config.rs` touches: whether `.outpack` exists,
and the contents of `.outpack/config.json` when present. -/
structure ConfigDisk (β : Type) where
  outpackExists : Bool
  configFile : Option β

/-- `config::read_config(root)`: open `.outpack/config.json` (NotFound when
the directory or file is missing) and deserialise it. -/
def read_config {β : Type} (de : β → Option Config) (st : ConfigDisk β) :
    Except IoError Config :=
  match (if st.outpackExists then st.configFile else none) with
  | none => .error ⟨.notFound, "config.json not found"⟩
  | some b =>
    match de b with
    | some c => .ok c
    | none => .error ⟨.invalidData, "failed to parse config.json"⟩

/-- `config::write_config(config, root)`: create (truncate)
`.outpack/config.json` — which fails when `.outpack` is missing — and write
the serialised configuration. -/
def write_config {β : Type} (ser : Config → β) (cfg : Config)
    (st : ConfigDisk β) : Except IoError (ConfigDisk β) :=
  if st.outpackExists then .ok { st with configFile := some (ser cfg) }
  else .error ⟨.notFound, "no such directory: .outpack"⟩

/-! ## HTTP error responses (`src/responses.rs`) -/

/-- `responses::OutpackError`. -/
structure OutpackError where
  error : String
  detail : String
  kind : Option ErrorKind
deriving DecidableEq

/-- `responses::FailResponse`.  `data` is always `null` in practice; its
type in the source is `Option<String>`. -/
structure FailResponse where
  status : String
  data : Option String
  errors : Option (List OutpackError)
deriving DecidableEq

/-- `impl IntoResponse for OutpackError`: the HTTP status code derived from
the error kind, and the failure envelope holding exactly this error. -/
def into_response (e : OutpackError) : Nat × FailResponse :=
  (match e.kind with
   | some .notFound => 404
   | some .invalidInput => 400
   | some .unexpectedEof => 400
   | some .alreadyExists => 409
   | _ => 500,
   { status := "failure", data := none, errors := some [e] })

/-! ## Query AST (`src/query/query_types.rs`) -/

/-- `query_types::Lookup`. -/
inductive Lookup where
  | name
  | id
  | parameter (s : String)

/-- `query_types::Literal` (`Number` holds an `f64`, modelled as `Rat`). -/
inductive Literal where
  | bool (b : Bool)
  | string (s : String)
  | number (q : Rat)

/-- `query_types::Test` (the comparison operators). -/
inductive Test where
  | equal
  | notEqual
  | lessThan
  | lessThanOrEqual
  | greaterThan
  | greaterThanOrEqual

/-- `query_types::QueryNode`: exactly the variants the source declares. -/
inductive QueryNode where
  | latest (inner : Option QueryNode)
  | test (op : Test) (lhs : Lookup) (rhs : Literal)

/-- The variant tag of a `QueryNode` value. -/
def QueryNode.variantName : QueryNode → String
  | .latest _ => "Latest"
  | .test .. => "Test"

/-- The variant tag of a `Lookup` value. -/
def Lookup.variantName : Lookup → String
  | .name => "Name"
  | .id => "Id"
  | .parameter _ => "Parameter"

/-! ## Helper lemmas -/

deriving instance DecidableEq for Except

theorem takeWhile_all_append_cons {p : α → Bool} {l : List α}
    (hl : l.all p) (c : α) (hc : p c = false) (r : List α) :
    (l ++ c :: r).takeWhile p = l := by
  induction l with
  | nil => simp [List.takeWhile, hc]
  | cons x xs ih =>
    simp only [List.all_cons, Bool.and_eq_true] at hl
    simp [List.takeWhile, hl.1, ih hl.2]

theorem dropWhile_all_append_cons {p : α → Bool} {l : List α}
    (hl : l.all p) (c : α) (hc : p c = false) (r : List α) :
    (l ++ c :: r).dropWhile p = c :: r := by
  induction l with
  | nil => simp [List.dropWhile, hc]
  | cons x xs ih =>
    simp only [List.all_cons, Bool.and_eq_true] at hl
    simp [List.dropWhile, hl.1, ih hl.2]

theorem fromString_eq_some {s : String} {a : HashAlgorithm} :
    HashAlgorithm.fromString s = some a ↔ s = a.name := by
  constructor
  · intro h
    unfold HashAlgorithm.fromString at h
    split_ifs at h with h1 h2 h3 <;>
      (injection h with h; subst h) <;> simp_all [HashAlgorithm.name]
  · intro h
    subst h
    cases a <;> simp [HashAlgorithm.fromString, HashAlgorithm.name]

theorem collectE_ok_mem {α β : Type} {f : α → Except IoError β} {l : List α}
    {ys : List β} (h : collectE f l = .ok ys) (y : β) :
    y ∈ ys ↔ ∃ x ∈ l, f x = .ok y := by
  induction l generalizing ys with
  | nil =>
    simp only [collectE] at h
    injection h with h
    subst h
    simp
  | cons x xs ih =>
    simp only [collectE] at h
    cases hfx : f x with
    | error e => rw [hfx] at h; exact absurd h (by simp)
    | ok z =>
      rw [hfx] at h
      cases hrest : collectE f xs with
      | error e => rw [hrest] at h; exact absurd h (by simp)
      | ok zs =>
        rw [hrest] at h
        injection h with h
        subst h
        simp only [List.mem_cons]
        constructor
        · rintro (rfl | hy)
          · exact ⟨x, Or.inl rfl, hfx⟩
          · obtain ⟨w, hw, hfw⟩ := (ih hrest).mp hy
            exact ⟨w, Or.inr hw, hfw⟩
        · rintro ⟨w, (rfl | hw), hfw⟩
          · rw [hfx] at hfw; injection hfw with hfw; exact Or.inl hfw.symm
          · exact Or.inr ((ih hrest).mpr ⟨w, hw, hfw⟩)

theorem lookup_none_countP {β : Type} {k : List String}
    {l : List (List String × β)} (h : l.lookup k = none) :
    l.countP (fun e => e.1 == k) = 0 := by
  induction l with
  | nil => simp
  | cons x xs ih =>
    rw [List.lookup] at h
    cases hk : k == x.1 with
    | true => rw [hk] at h; exact absurd h (by simp)
    | false =>
      rw [hk] at h
      have hx : (x.1 == k) = false :=
        beq_eq_false_iff_ne.mpr fun he => (beq_eq_false_iff_ne.mp hk) he.symm
      rw [List.countP_cons]
      simp only [hx, if_false]
      exact ih h

/-! ## Claim theorems -/

/-- Claim C5: For every error surfaced by the engine, the HTTP response
status is 404 for `NotFound`, 400 for `InvalidInput`, 400 for
`UnexpectedEof`, 409 for `AlreadyExists`, and 500 for every other kind, and
the response body is
`{status:"failure", data:null, errors:[{error,detail}]}` containing exactly
that error. -/
theorem error_response_status_mapping (e : OutpackError) :
    ((e.kind = some .notFound → (into_response e).1 = 404) ∧
     (e.kind = some .invalidInput → (into_response e).1 = 400) ∧
     (e.kind = some .unexpectedEof → (into_response e).1 = 400) ∧
     (e.kind = some .alreadyExists → (into_response e).1 = 409) ∧
     (e.kind ≠ some .notFound → e.kind ≠ some .invalidInput →
      e.kind ≠ some .unexpectedEof → e.kind ≠ some .alreadyExists →
      (into_response e).1 = 500)) ∧
    (into_response e).2 = ⟨"failure", none, some [e]⟩ := by
  obtain ⟨er, detail, kind⟩ := e
  rcases kind with _ | kind
  · simp [into_response]
  · cases kind <;> simp [into_response]

/-- Witness for C5 at a concrete error value. -/
theorem error_response_status_mapping_witness :
    (into_response ⟨"e", "d", some .alreadyExists⟩).1 = 409 ∧
    (into_response ⟨"e", "d", some .other⟩).1 = 500 ∧
    (into_response ⟨"e", "d", some .alreadyExists⟩).2 =
      ⟨"failure", none, some [⟨"e", "d", some .alreadyExists⟩]⟩ :=
  ⟨(error_response_status_mapping ⟨"e", "d", some .alreadyExists⟩).1.2.2.2.1 rfl,
   (error_response_status_mapping ⟨"e", "d", some .other⟩).1.2.2.2.2
     (by decide) (by decide) (by decide) (by decide),
   (error_response_status_mapping ⟨"e", "d", some .alreadyExists⟩).2⟩

/-- Claim C8 counterexample: The claim says `QueryNode` has variants
`Latest, Single, Negation, Brackets, Test, BooleanOp` and `Lookup` has
variants `Name, Id, Parameter, This, Env`; but no value of the source's
`QueryNode` is a `Single` (or `Negation`, `Brackets`, `BooleanOp`) and no
value of `Lookup` is a `This` (or `Env`). -/
theorem query_ast_variants_counterexample :
    (¬ ∃ q : QueryNode, q.variantName = "Single") ∧
    (¬ ∃ l : Lookup, l.variantName = "This") := by
  constructor
  · rintro ⟨q, hq⟩
    cases q <;> simp [QueryNode.variantName] at hq
  · rintro ⟨l, hl⟩
    cases l <;> simp [Lookup.variantName] at hl

/-- Claim C8 as amended: The query AST is a tagged-variant type where
`QueryNode` has exactly the variants `Latest` and `Test`, and `Lookup` has
exactly the variants `Name`, `Id` and `Parameter(name)`; every value lies
in these variants and each variant is inhabited. -/
theorem query_ast_variants :
    (∀ q : QueryNode, q.variantName = "Latest" ∨ q.variantName = "Test") ∧
    (∃ q : QueryNode, q.variantName = "Latest") ∧
    (∃ q : QueryNode, q.variantName = "Test") ∧
    (∀ l : Lookup,
      l.variantName = "Name" ∨ l.variantName = "Id" ∨ l.variantName = "Parameter") ∧
    (∃ l : Lookup, l.variantName = "Name") ∧
    (∃ l : Lookup, l.variantName = "Id") ∧
    (∃ l : Lookup, l.variantName = "Parameter") := by
  refine ⟨fun q => ?_, ⟨.latest none, rfl⟩, ⟨.test .equal .name (.bool true), rfl⟩,
    fun l => ?_, ⟨.name, rfl⟩, ⟨.id, rfl⟩, ⟨.parameter "p", rfl⟩⟩
  · cases q <;> simp [QueryNode.variantName]
  · cases l <;> simp [Lookup.variantName]

/-- Claim C10: `file_path` slices the parsed hex value at index 2 without a
guard: for every accepted hash whose hex part has at least two characters
it returns `root/.outpack/files/<algo>/<hex[0:2]>/<hex[2:]>` without
panicking, and for every accepted hash whose hex part is shorter than two
characters it panics (`value[..2]` out of bounds). -/
theorem file_path_slice_totality :
    (∀ (root : List String) (s : String) (h : Hash), parseHash s = .ok h →
       2 ≤ h.value.length →
       file_path root s = .ok (root ++ [".outpack", "files", h.algorithm.name,
         (h.value.toList.take 2).asString, (h.value.toList.drop 2).asString])) ∧
    (∀ (root : List String) (s : String) (h : Hash), parseHash s = .ok h →
       h.value.length < 2 → file_path root s = .panic) := by
  constructor
  · intro root s h hp hl
    simp [file_path, hp, hl]
  · intro root s h hp hl
    simp [file_path, hp, Nat.not_le.mpr hl]

/-- Witness for C10: the repository's own `can_get_path` example, and the
panic on an accepted one-character hex value. -/
theorem file_path_slice_totality_witness :
    file_path ["root"] "sha256:e9aa9f2212ab" =
      .ok ["root", ".outpack", "files", "sha256", "e9", "aa9f2212ab"] ∧
    file_path ["root"] "sha256:a" = .panic :=
  ⟨file_path_slice_totality.1 ["root"] "sha256:e9aa9f2212ab"
      ⟨.sha256, "e9aa9f2212ab"⟩ (by decide) (by decide),
   file_path_slice_totality.2 ["root"] "sha256:a" ⟨.sha256, "a"⟩
      (by decide) (by decide)⟩

/-- Claim C4: If `add_packet` fails (in particular when any precondition
fails: missing file, missing dependency, hash mismatch), the repository
state — `metadata/<id>`, the local location ledger, and everything else —
is exactly as it was before the call. -/
theorem add_packet_atomic (P : String → Option Packet) (H : HashImpl)
    (root : List String) (now : Rat) (data : String) (h : Hash) (st : Repo)
    (e : IoError)
    (hfail : (add_packet P H root now data h st).1 = .err e) :
    (add_packet P H root now data h st).2 = st := by
  unfold add_packet at hfail ⊢
  cases hP : P data with
  | none => simp [hP]
  | some packet =>
    simp only [hP] at hfail ⊢
    cases hcf : check_missing_files root st packet with
    | err e' => simp [hcf]
    | panic => simp [hcf] at hfail
    | ok u =>
      cases u
      simp only [hcf] at hfail ⊢
      cases hcd : check_missing_dependencies st packet with
      | error e' => simp [hcd]
      | ok u =>
        cases u
        simp only [hcd] at hfail ⊢
        cases hap : add_parsed_metadata H data packet h.render st with
        | error e' => simp [hap]
        | ok st' => simp [hap] at hfail

/-- Witness for C4: a concrete failing ingestion (unparseable document)
leaves the concrete repository unchanged. -/
theorem add_packet_atomic_witness :
    (add_packet (fun _ => none) ⟨fun _ _ => ""⟩ ["r"] 0 "bad" ⟨.sha256, "aa"⟩
        ⟨none, [("x", "y")], [], []⟩).2 = ⟨none, [("x", "y")], [], []⟩ :=
  add_packet_atomic (fun _ => none) ⟨fun _ _ => ""⟩ ["r"] 0 "bad" ⟨.sha256, "aa"⟩
    ⟨none, [("x", "y")], [], []⟩ ⟨.invalidData, "failed to parse metadata document"⟩ rfl

/-- Claim C9: For every configuration value and every root whose `.outpack`
directory exists, `write_config` followed by `read_config` succeeds and
returns an equal configuration, given that the (external) serde codec
satisfies its round-trip contract. -/
theorem config_roundtrip {β : Type} (ser : Config → β) (de : β → Option Config)
    (st : ConfigDisk β) (cfg : Config)
    (hserde : ∀ c, de (ser c) = some c)
    (hdir : st.outpackExists = true) :
    ∃ st', write_config ser cfg st = .ok st' ∧ read_config de st' = .ok cfg := by
  refine ⟨{ st with configFile := some (ser cfg) }, ?_, ?_⟩
  · simp [write_config, hdir]
  · simp [read_config, hdir, hserde]

/-- Claim C7: For every root, data and matching hash: two successive
`put_file(root, data, h)` calls both succeed; after them the blob is
present exactly once at the path derived from `h` and its contents equal
`data` (the second call is a no-op because the file already exists).  The
hypotheses say the claimed hash parses, matches the data's digest, has a
sliceable hex part, and that the path is initially vacant. -/
theorem put_file_idempotent (H : HashImpl) (root : List String) (st : Store)
    (data hs : String) (h : Hash)
    (hparse : parseHash hs = .ok h)
    (hdigest : H.digestHex h.algorithm data = h.value)
    (hlen : 2 ≤ h.value.length)
    (hab : st.lookup (storePath root h) = none) :
    ∃ st₁,
      put_file H root st data hs = (.ok (), st₁) ∧
      put_file H root st₁ data hs = (.ok (), st₁) ∧
      st₁.lookup (storePath root h) = some data ∧
      st₁.countP (fun e => e.1 == storePath root h) = 1 := by
  have hval : validateHashData H data hs = .ok () := by
    simp [validateHashData, hparse, hashData, hdigest]
  have hfp : file_path root hs = .ok (storePath root h) := by
    simp [file_path, hparse, hlen, storePath]
  refine ⟨(storePath root h, data) :: st, ?_, ?_, ?_, ?_⟩
  · simp only [put_file, hval, hfp, file_exists, hab]
    rfl
  · simp only [put_file, hval, hfp, file_exists]
    simp [List.lookup]
  · simp [List.lookup]
  · rw [List.countP_cons, if_pos (by simp), lookup_none_countP hab]

/-- Witness for C7 at a concrete store, data and digest function. -/
theorem put_file_idempotent_witness :
    ∃ st₁,
      put_file ⟨fun _ _ => "abcd"⟩ ["r"] [] "Testing 123." "sha256:abcd" =
        (.ok (), st₁) ∧
      put_file ⟨fun _ _ => "abcd"⟩ ["r"] st₁ "Testing 123." "sha256:abcd" =
        (.ok (), st₁) ∧
      st₁.lookup (storePath ["r"] ⟨.sha256, "abcd"⟩) = some "Testing 123." ∧
      st₁.countP (fun e => e.1 == storePath ["r"] ⟨.sha256, "abcd"⟩) = 1 :=
  put_file_idempotent ⟨fun _ _ => "abcd"⟩ ["r"] [] "Testing 123." "sha256:abcd"
    ⟨.sha256, "abcd"⟩ (by decide) rfl (by decide) rfl

/-- Claim C1 counterexample: The claim says ingesting a body with different
content under an id whose `metadata/<id>` file already exists fails with
`AlreadyExists`.  On a concrete repository which already stores `"docA"`
under the id, ingesting the different body `"docB"` (with its own correct
hash) *succeeds* — `add_parsed_metadata` only tests `path.exists()` and
silently skips the write — leaving the stored file unchanged. -/
theorem add_packet_different_content_counterexample :
    add_packet
      (fun s => if s = "docA" || s = "docB" then
        some ⟨"20230427-150828-68772cee", "nm", none, none, [], [], ⟨0, 0⟩⟩ else none)
      ⟨fun _ s => if s = "docA" then "aaaa" else "bbbb"⟩
      ["r"] 2 "docB" ⟨.sha256, "bbbb"⟩
      ⟨none, [("20230427-150828-68772cee", "docA")],
       [("local", [("20230427-150828-68772cee",
          ⟨"20230427-150828-68772cee", 1, "sha256:aaaa"⟩)])], []⟩ =
    (.ok (),
     ⟨none, [("20230427-150828-68772cee", "docA")],
      [("local", [("20230427-150828-68772cee",
         ⟨"20230427-150828-68772cee", 1, "sha256:aaaa"⟩)])], []⟩) ∧
    ("docA" : String) ≠ "docB" := by
  exact ⟨rfl, by decide⟩

/-- Claim C1 as amended: Re-ingesting a byte-identical document under the same
id succeeds as a no-op; and ingesting a body with **different** content
under an id that already has a stored metadata file also succeeds as a
silent no-op — the stored file is left unchanged, but no `AlreadyExists`
error is raised (the spec's `AlreadyExists` behaviour lives in the unused
helper `write_file_idempotent`, which `add_parsed_metadata` does not call).
The hypotheses state that the document parses, the file/dependency
preconditions pass, the claimed hash matches the body, and the packet
already has its metadata file and local ledger entry. -/
theorem add_packet_existing_id_noop (P : String → Option Packet)
    (H : HashImpl) (root : List String) (now : Rat) (data : String)
    (h : Hash) (st : Repo) (packet : Packet) (old : String)
    (files : List (String × LocationEntry))
    (hP : P data = some packet)
    (hstored : st.metadata.lookup packet.id = some old)
    (hfiles : check_missing_files root st packet = .ok ())
    (hdeps : check_missing_dependencies st packet = .ok ())
    (hhash : validateHashData H data h.render = .ok ())
    (hloc : st.locations.lookup "local" = some files)
    (hentry : (files.lookup packet.id).isSome = true) :
    add_packet P H root now data h st = (.ok (), st) ∧
    (add_packet P H root now data h st).2.metadata.lookup packet.id = some old ∧
    (old ≠ data →
      write_file_idempotent (some old) data =
        .error ⟨.alreadyExists, "entity already exists"⟩) := by
  have hmain : add_packet P H root now data h st = (.ok (), st) := by
    simp only [add_packet, hP, hfiles, hdeps, add_parsed_metadata, hhash,
      hstored, Option.isSome_some, if_true, mark_packet_known, hloc, hentry]
  refine ⟨hmain, ?_, ?_⟩
  · rw [hmain]; exact hstored
  · intro hne
    simp [write_file_idempotent, hne]

/-- Witness for C1's amended theorem: a byte-identical re-ingestion on a
concrete repository is a no-op. -/
theorem add_packet_existing_id_noop_witness :
    add_packet
      (fun s => if s = "docA" then
        some ⟨"20230427-150828-68772cee", "nm", none, none, [], [], ⟨0, 0⟩⟩ else none)
      ⟨fun _ _ => "aaaa"⟩ ["r"] 2 "docA" ⟨.sha256, "aaaa"⟩
      ⟨none, [("20230427-150828-68772cee", "docA")],
       [("local", [("20230427-150828-68772cee",
          ⟨"20230427-150828-68772cee", 1, "sha256:aaaa"⟩)])], []⟩ =
    (.ok (),
     ⟨none, [("20230427-150828-68772cee", "docA")],
      [("local", [("20230427-150828-68772cee",
         ⟨"20230427-150828-68772cee", 1, "sha256:aaaa"⟩)])], []⟩) :=
  (add_packet_existing_id_noop
    (fun s => if s = "docA" then
      some ⟨"20230427-150828-68772cee", "nm", none, none, [], [], ⟨0, 0⟩⟩ else none)
    ⟨fun _ _ => "aaaa"⟩ ["r"] 2 "docA" ⟨.sha256, "aaaa"⟩
    ⟨none, [("20230427-150828-68772cee", "docA")],
     [("local", [("20230427-150828-68772cee",
        ⟨"20230427-150828-68772cee", 1, "sha256:aaaa"⟩)])], []⟩
    ⟨"20230427-150828-68772cee", "nm", none, none, [], [], ⟨0, 0⟩⟩ "docA"
    [("20230427-150828-68772cee", ⟨"20230427-150828-68772cee", 1, "sha256:aaaa"⟩)]
    rfl rfl rfl rfl rfl rfl rfl).1

theorem listLtb_asymm : ∀ (as bs : List Char),
    listLtb as bs = true → listLtb bs as = false := by
  intro as
  induction as with
  | nil =>
    intro bs h
    cases bs with
    | nil => simp [listLtb] at h
    | cons b bs => simp [listLtb]
  | cons a as ih =>
    intro bs h
    cases bs with
    | nil => simp [listLtb] at h
    | cons b bs =>
      simp only [listLtb] at h ⊢
      rcases Nat.lt_trichotomy a.toNat b.toNat with hlt | heq | hgt
      · rw [if_neg (by omega), if_pos hlt]
      · rw [if_neg (by omega), if_neg (by omega)] at h ⊢
        exact ih bs h
      · rw [if_neg (by omega), if_pos hgt] at h
        exact absurd h (by simp)

theorem listLtb_antisymm_eq : ∀ (as bs : List Char),
    listLtb as bs = false → listLtb bs as = false → as = bs := by
  intro as
  induction as with
  | nil =>
    intro bs h1 _
    cases bs with
    | nil => rfl
    | cons b bs => simp [listLtb] at h1
  | cons a as ih =>
    intro bs h1 h2
    cases bs with
    | nil => simp [listLtb] at h2
    | cons b bs =>
      simp only [listLtb] at h1 h2
      rcases Nat.lt_trichotomy a.toNat b.toNat with hlt | heq | hgt
      · rw [if_pos hlt] at h1
        exact absurd h1 (by simp)
      · rw [if_neg (by omega), if_neg (by omega)] at h1 h2
        have hval : a = b := Char.ext (UInt32.ext heq)
        rw [hval, ih bs h1 h2]
      · rw [if_pos hgt] at h2
        exact absurd h2 (by simp)

theorem listLtb_false_trans : ∀ (as bs cs : List Char),
    listLtb bs as = false → listLtb cs bs = false → listLtb cs as = false := by
  intro as
  induction as with
  | nil =>
    intro bs cs _ _
    cases cs <;> simp [listLtb]
  | cons a as ih =>
    intro bs cs h1 h2
    cases bs with
    | nil => simp [listLtb] at h1
    | cons b bs =>
      cases cs with
      | nil => simp [listLtb] at h2
      | cons c cs =>
        simp only [listLtb] at h1 h2 ⊢
        rcases Nat.lt_trichotomy b.toNat a.toNat with hba | hba | hba
        · rw [if_pos hba] at h1
          exact absurd h1 (by simp)
        · rcases Nat.lt_trichotomy c.toNat b.toNat with hcb | hcb | hcb
          · rw [if_pos hcb] at h2
            exact absurd h2 (by simp)
          · rw [if_neg (by omega), if_neg (by omega)] at h1 h2 ⊢
            exact ih bs cs h1 h2
          · rw [if_neg (by omega), if_pos (by omega)]
        · rcases Nat.lt_trichotomy c.toNat b.toNat with hcb | hcb | hcb
          · rw [if_pos hcb] at h2
            exact absurd h2 (by simp)
          · rw [if_neg (by omega), if_pos (by omega)]
          · rw [if_neg (by omega), if_pos (by omega)]

instance : IsTotal String strLe :=
  ⟨fun a b => by
    unfold strLe
    cases h : listLtb b.data a.data with
    | false => exact Or.inl rfl
    | true => exact Or.inr (listLtb_asymm _ _ h)⟩

instance : IsTrans String strLe :=
  ⟨fun a b c h1 h2 => listLtb_false_trans a.data b.data c.data h1 h2⟩

instance : IsAntisymm String strLe :=
  ⟨fun a b h1 h2 => by
    have : a.data = b.data := listLtb_antisymm_eq a.data b.data h2 h1
    exact String.ext this⟩

instance : IsTotal Packet packetIdLe :=
  ⟨fun a b => total_of strLe a.id b.id⟩

instance : IsTrans Packet packetIdLe :=
  ⟨fun _ _ _ h1 h2 => trans_of strLe h1 h2⟩

theorem lt_of_listLtb : ∀ (as bs : List Char),
    listLtb as bs = true → List.lt as bs := by
  intro as
  induction as with
  | nil =>
    intro bs h
    cases bs with
    | nil => simp [listLtb] at h
    | cons b bs => exact List.lt.nil b bs
  | cons a as ih =>
    intro bs h
    cases bs with
    | nil => simp [listLtb] at h
    | cons b bs =>
      simp only [listLtb] at h
      rcases Nat.lt_trichotomy a.toNat b.toNat with hlt | heq | hgt
      · exact List.lt.head as bs hlt
      · rw [if_neg (by omega), if_neg (by omega)] at h
        exact List.lt.tail (by omega : ¬ a.toNat < b.toNat)
          (by omega : ¬ b.toNat < a.toNat) (ih bs h)
      · rw [if_neg (by omega), if_pos hgt] at h
        exact absurd h (by simp)

theorem listLtb_of_lt : ∀ {as bs : List Char},
    List.lt as bs → listLtb as bs = true := by
  intro as bs h
  induction h with
  | nil b bs => simp [listLtb]
  | head as bs hab =>
    simp only [listLtb]
    rw [if_pos (by exact hab)]
  | tail h1 h2 _ ih =>
    simp only [listLtb]
    rw [if_neg (by exact h1), if_neg (by exact h2)]
    exact ih

/-- `listLtb` is core's lexicographic list order `List.lt` (with the
code-point order on `Char`). -/
theorem listLtb_iff_lt (as bs : List Char) :
    listLtb as bs = true ↔ List.lt as bs :=
  ⟨lt_of_listLtb as bs, listLtb_of_lt⟩

/-- `strLe` is the lexicographic order: `a ≤ b` iff `b.data` is not
lexicographically smaller than `a.data`. -/
theorem strLe_iff (a b : String) : strLe a b ↔ ¬ List.lt b.data a.data := by
  unfold strLe
  rw [← listLtb_iff_lt]
  simp

theorem dropWhile_all_eq_nil {p : α → Bool} {l : List α} (h : l.all p) :
    l.dropWhile p = [] := by
  induction l with
  | nil => rfl
  | cons x xs ih =>
    simp only [List.all_cons, Bool.and_eq_true] at h
    simp [List.dropWhile, h.1, ih h.2]

theorem string_data_eq_nil {s : String} (h : s ≠ "") : s.data ≠ [] := by
  intro hd
  exact h (String.ext hd)

theorem insertionSort_eq_of_perm {l₁ l₂ : List String} (hp : l₁.Perm l₂) :
    l₁.insertionSort strLe = l₂.insertionSort strLe :=
  List.eq_of_perm_of_sorted
    ((List.perm_insertionSort _ l₁).trans
      (hp.trans (List.perm_insertionSort _ l₂).symm))
    (List.sorted_insertionSort _ l₁) (List.sorted_insertionSort _ l₂)

theorem get_sorted_id_string_perm {l₁ l₂ : List String} (hp : l₁.Perm l₂) :
    get_sorted_id_string l₁ = get_sorted_id_string l₂ := by
  unfold get_sorted_id_string
  rw [insertionSort_eq_of_perm hp]

/-- Claim C6: `ids_digest` equals `hash_bytes` applied to the
lexicographically sorted ids concatenated with no separator, rendered in
`<algo>:<hex>` form using the requested algorithm (or the configured one
when absent); consequently, for any permutation of the same id set it
returns an identical value. -/
theorem ids_digest_sorted (H : HashImpl) (st st' : Repo) :
    (∀ cfg, st.config = some cfg →
      get_ids_digest H st none = .ok
        (cfg.core.hash_algorithm.name ++ ":" ++
         H.digestHex cfg.core.hash_algorithm
           (get_sorted_id_string (st.metadata.map (·.1))))) ∧
    (∀ nm alg, HashAlgorithm.fromString nm = some alg →
      get_ids_digest H st (some nm) = .ok
        (alg.name ++ ":" ++
         H.digestHex alg (get_sorted_id_string (st.metadata.map (·.1))))) ∧
    (∃ sorted_ids, sorted_ids.Perm (st.metadata.map (·.1)) ∧
       List.Sorted strLe sorted_ids ∧
       get_sorted_id_string (st.metadata.map (·.1)) = String.join sorted_ids) ∧
    ((st.metadata.map (·.1)).Perm (st'.metadata.map (·.1)) →
      st.config = st'.config →
      ∀ o, get_ids_digest H st o = get_ids_digest H st' o) := by
  refine ⟨?_, ?_, ?_, ?_⟩
  · intro cfg hcfg
    simp [get_ids_digest, get_ids, hcfg, hashData, Hash.render]
  · intro nm alg halg
    simp [get_ids_digest, get_ids, halg, hashData, Hash.render]
  · exact ⟨_, List.perm_insertionSort _ _, List.sorted_insertionSort _ _, rfl⟩
  · intro hperm hconf o
    have hs := get_sorted_id_string_perm hperm
    simp only [get_ids_digest, get_ids, Bool.false_eq_true, if_false, hconf, hs]

/-- Witness for C6 at two concrete repositories whose metadata directories
are permutations of one another. -/
theorem ids_digest_sorted_witness :
    get_ids_digest ⟨fun _ s => s⟩
      ⟨some ⟨⟨.sha256, none, true, true⟩, []⟩, [("b", "x"), ("a", "y")], [], []⟩
      none = .ok "sha256:ab" ∧
    get_ids_digest ⟨fun _ s => s⟩
      ⟨some ⟨⟨.sha256, none, true, true⟩, []⟩, [("b", "x"), ("a", "y")], [], []⟩
      none =
    get_ids_digest ⟨fun _ s => s⟩
      ⟨some ⟨⟨.sha256, none, true, true⟩, []⟩, [("a", "y"), ("b", "x")], [], []⟩
      none := by
  constructor
  · have h1 := (ids_digest_sorted ⟨fun _ s => s⟩
      ⟨some ⟨⟨.sha256, none, true, true⟩, []⟩, [("b", "x"), ("a", "y")], [], []⟩
      ⟨some ⟨⟨.sha256, none, true, true⟩, []⟩, [("a", "y"), ("b", "x")], [], []⟩).1
      ⟨⟨.sha256, none, true, true⟩, []⟩ rfl
    rw [h1]
    rfl
  · exact (ids_digest_sorted ⟨fun _ s => s⟩
      ⟨some ⟨⟨.sha256, none, true, true⟩, []⟩, [("b", "x"), ("a", "y")], [], []⟩
      ⟨some ⟨⟨.sha256, none, true, true⟩, []⟩, [("a", "y"), ("b", "x")], [], []⟩).2.2.2
      (by decide) rfl none

/-- Claim C3 counterexample: The claim says the hex part must have the exact
digest length of the named algorithm (sha256 = 64 hex digits), so
`sha256:<12 hex digits>` must be rejected; but the parser — as pinned by
the repository's own tests `can_get_path` and
`put_file_validates_hash_match` — accepts it. -/
theorem hash_parse_short_hex_counterexample :
    parseHash "sha256:e9aa9f2212ab" = .ok ⟨.sha256, "e9aa9f2212ab"⟩ ∧
    parseHash "md5:abcde" = .ok ⟨.md5, "abcde"⟩ := by
  constructor <;> decide

/-- Claim C3 as amended: Parsing `<algo>:<hex>` succeeds exactly on strings of
the form `<known-algo>:<nonempty hex>`, with **no length validation** (hex
parts of any positive length are accepted); it fails with
`InvalidHashFormat` when the separator is missing, or when the part after
the separator is not nonempty hex. -/
theorem parseHash_no_length_validation :
    (∀ (s : String) (h : Hash), parseHash s = .ok h ↔
      s = h.algorithm.name ++ ":" ++ h.value ∧ h.value ≠ "" ∧
        h.value.toList.all isXdigit = true) ∧
    (∀ s : String, (∀ c ∈ s.toList, c ≠ ':') →
      parseHash s = .error (.invalidFormat s)) ∧
    (∀ a v : String, (∀ c ∈ a.toList, c ≠ ':') →
      ¬(v ≠ "" ∧ v.toList.all isXdigit = true) →
      parseHash (a ++ ":" ++ v) = .error (.invalidFormat (a ++ ":" ++ v))) := by
  refine ⟨?_, ?_, ?_⟩
  · intro s h
    constructor
    · intro hp
      simp only [parseHash] at hp
      split at hp
      case _ v hdw =>
        split at hp
        case isTrue hcond =>
          obtain ⟨ha_ne, ha_alnum, hv_ne, hv_hex⟩ := hcond
          split at hp
          case _ alg heqf =>
            injection hp with hp
            subst hp
            have hname : String.mk (s.toList.takeWhile (fun c => decide (c ≠ ':')))
                = alg.name := fromString_eq_some.mp heqf
            refine ⟨?_, ?_, hv_hex⟩
            · apply String.ext
              have hsplit := List.takeWhile_append_dropWhile
                (p := fun c => decide (c ≠ ':')) (l := s.toList)
              rw [hdw] at hsplit
              have hadata : s.toList.takeWhile (fun c => decide (c ≠ ':'))
                  = alg.name.data := congrArg String.data hname
              calc s.data = s.toList.takeWhile (fun c => decide (c ≠ ':')) ++ ':' :: v :=
                    hsplit.symm
                _ = alg.name.data ++ ':' :: v := by rw [hadata]
                _ = (alg.name ++ ":" ++ String.mk v).data := by
                    rw [String.data_append, String.data_append]
                    simp
            · intro hemp
              exact hv_ne (congrArg String.data hemp)
          case _ heqf => exact absurd hp (by simp)
        case isFalse hcond => exact absurd hp (by simp)
      case _ hne1 hne2 => exact absurd hp (by simp)
    · intro hcomp
      obtain ⟨alg, value⟩ := h
      obtain ⟨rfl, hne, hhex⟩ := hcomp
      simp only [parseHash]
      have hall : (alg.name.data).all (fun c => decide (c ≠ ':')) = true := by
        cases alg <;> decide
      have hdata : (alg.name ++ ":" ++ value).toList
          = alg.name.data ++ ':' :: value.data := by
        show (alg.name ++ ":" ++ value).data = _
        rw [String.data_append, String.data_append]
        simp
      rw [hdata, takeWhile_all_append_cons hall ':' (by decide) value.data,
        dropWhile_all_append_cons hall ':' (by decide) value.data]
      have hv : value.data ≠ [] := string_data_eq_nil hne
      split
      next v' heq =>
        injection heq with heq1 heq2
        subst heq2
        rw [if_pos ⟨by cases alg <;> decide, by cases alg <;> decide, hv, hhex⟩]
        cases alg <;> rfl
      next x heq =>
        exact absurd (rfl : (':' :: value.data : List Char) = ':' :: value.data)
          (heq value.data)
  · intro s hs
    simp only [parseHash]
    have hall : s.toList.all (fun c => decide (c ≠ ':')) = true := by
      rw [List.all_eq_true]
      intro c hc
      simpa using hs c hc
    rw [dropWhile_all_eq_nil hall]
  · intro a v ha hnv
    simp only [parseHash]
    have hall : a.data.all (fun c => decide (c ≠ ':')) = true := by
      rw [List.all_eq_true]
      intro c hc
      simpa using ha c hc
    have hdata : (a ++ ":" ++ v).toList = a.data ++ ':' :: v.data := by
      show (a ++ ":" ++ v).data = _
      rw [String.data_append, String.data_append]
      simp
    rw [hdata, takeWhile_all_append_cons hall ':' (by decide) v.data,
      dropWhile_all_append_cons hall ':' (by decide) v.data]
    split
    next v' heq =>
      injection heq with heq1 heq2
      subst heq2
      rw [if_neg]
      rintro ⟨_, _, h3, h4⟩
      exact hnv ⟨fun hv => h3 (by simp [hv]), h4⟩
    next x heq => rfl

/-- Witness for C3's amended theorem: `md5:abcde` (5 hex digits) is
accepted, `badhash` (no separator) is rejected with `InvalidHashFormat`. -/
theorem parseHash_no_length_validation_witness :
    parseHash "md5:abcde" = .ok ⟨.md5, "abcde"⟩ ∧
    parseHash "badhash" = .error (.invalidFormat "badhash") :=
  ⟨(parseHash_no_length_validation.1 "md5:abcde" ⟨.md5, "abcde"⟩).mpr
      ⟨by decide, by decide, by decide⟩,
   parseHash_no_length_validation.2.1 "badhash" (by decide)⟩

/-- Claim C2 counterexample: The claim says that with `since` given, the list
keeps exactly the packets having a **local**-location ledger entry with
`time > since`.  On a repository whose only ledger entry for the packet
lives in a location named `other` (no `local` entry at all), the code keeps
the packet — `read_locations` walks *every* location directory — while the
claim's filter would drop it. -/
theorem metadata_list_since_counterexample :
    get_metadata_from_date
      (fun s => if s = "doc1" then
        some ⟨"20170818-164830-33e0ab01", "nm", none, none, [], [], ⟨0, 0⟩⟩ else none)
      ⟨none, [("20170818-164830-33e0ab01", "doc1")],
       [("other", [("20170818-164830-33e0ab01",
          ⟨"20170818-164830-33e0ab01", 10, "h"⟩)])], []⟩
      (some 5)
      = .ok [⟨"20170818-164830-33e0ab01", "nm", none, none, [], [], ⟨0, 0⟩⟩] ∧
    get_metadata_from_date_speced
      (fun s => if s = "doc1" then
        some ⟨"20170818-164830-33e0ab01", "nm", none, none, [], [], ⟨0, 0⟩⟩ else none)
      ⟨none, [("20170818-164830-33e0ab01", "doc1")],
       [("other", [("20170818-164830-33e0ab01",
          ⟨"20170818-164830-33e0ab01", 10, "h"⟩)])], []⟩
      (some 5)
      = .ok [] := by
  exact ⟨rfl, rfl⟩

/-- Claim C2 as amended: With `since` given, the metadata list keeps exactly
the entries of `metadata/` whose names match the packet-id regex and whose
**first** ledger entry found across **all** location directories (not just
`local`) has time strictly greater than `since`; each kept document is
parsed and the result is sorted ascending by packet id. -/
theorem get_metadata_from_date_characterization
    (P : String → Option Packet) (st : Repo) (since : Rat) (res : List Packet)
    (hres : get_metadata_from_date P st (some since) = .ok res) :
    List.Sorted packetIdLe res ∧
    ∀ d : Packet, d ∈ res ↔ ∃ nm raw, (nm, raw) ∈ st.metadata ∧
      is_packet_str nm = true ∧ P raw = some d ∧
      ∃ le, (read_locations st).find? (fun e => e.packet == nm) = some le ∧
        since < le.time := by
  simp only [get_metadata_from_date] at hres
  split at hres
  next e heq => exact absurd hres (by simp)
  next packets heq =>
    injection hres with hres
    subst hres
    refine ⟨List.sorted_insertionSort _ _, ?_⟩
    intro d
    rw [List.mem_insertionSort, collectE_ok_mem heq d]
    constructor
    · rintro ⟨e, he, hfe⟩
      rw [List.mem_filter] at he
      obtain ⟨he1, he2⟩ := he
      rw [List.mem_filter] at he1
      obtain ⟨hmem, hpk⟩ := he1
      refine ⟨e.1, e.2, hmem, hpk, ?_, ?_⟩
      · simp only [read_metadata] at hfe
        cases hP : P e.2 with
        | none => rw [hP] at hfe; exact absurd hfe (by simp)
        | some p =>
          rw [hP] at hfe
          injection hfe with h2
          rw [h2]
      · cases hfind : (read_locations st).find? (fun le => le.packet == e.1) with
        | none => rw [hfind] at he2; exact absurd he2 (by simp)
        | some le =>
          rw [hfind] at he2
          exact ⟨le, rfl, by simpa using he2⟩
    · rintro ⟨nm, raw, hmem, hpk, hP, le, hfind, hlt⟩
      refine ⟨(nm, raw), ?_, ?_⟩
      · rw [List.mem_filter]
        refine ⟨?_, ?_⟩
        · rw [List.mem_filter]
          exact ⟨hmem, hpk⟩
        · simp only
          rw [hfind]
          simpa using hlt
      · simp [read_metadata, hP]

/-- Witness for C2's amended theorem at a concrete repository with two
locations. -/
theorem get_metadata_from_date_characterization_witness :
    List.Sorted packetIdLe
      [⟨"20170818-164830-33e0ab01", "nm", none, none, [], [], ⟨0, 0⟩⟩] ∧
    ∀ d : Packet,
      d ∈ [(⟨"20170818-164830-33e0ab01", "nm", none, none, [], [], ⟨0, 0⟩⟩ : Packet)] ↔
      ∃ nm raw, (nm, raw) ∈ [("20170818-164830-33e0ab01", "doc1")] ∧
        is_packet_str nm = true ∧
        (fun s => if s = "doc1" then
          some (⟨"20170818-164830-33e0ab01", "nm", none, none, [], [], ⟨0, 0⟩⟩ : Packet)
          else none) raw = some d ∧
        ∃ le, (read_locations
            ⟨none, [("20170818-164830-33e0ab01", "doc1")],
             [("other", [("20170818-164830-33e0ab01",
                ⟨"20170818-164830-33e0ab01", 10, "h"⟩)])], []⟩).find?
            (fun e => e.packet == nm) = some le ∧ (5 : Rat) < le.time :=
  get_metadata_from_date_characterization
    (fun s => if s = "doc1" then
      some ⟨"20170818-164830-33e0ab01", "nm", none, none, [], [], ⟨0, 0⟩⟩ else none)
    ⟨none, [("20170818-164830-33e0ab01", "doc1")],
     [("other", [("20170818-164830-33e0ab01",
        ⟨"20170818-164830-33e0ab01", 10, "h"⟩)])], []⟩
    5 [⟨"20170818-164830-33e0ab01", "nm", none, none, [], [], ⟨0, 0⟩⟩] rfl

/-- Witness for C9 at a concrete configuration and an identity codec. -/
theorem config_roundtrip_witness :
    ∃ st', write_config (β := Config) id ⟨⟨.sha256, none, true, true⟩,
        [⟨"local", "local", []⟩]⟩ ⟨true, none⟩ = .ok st' ∧
      read_config some st' =
        .ok ⟨⟨.sha256, none, true, true⟩, [⟨"local", "local", []⟩]⟩ :=
  config_roundtrip id some ⟨true, none⟩ _ (fun _ => rfl) rfl

end Outpack
